import Mathlib

/-!
Shallow embedding of the shopping-assistant logic in `main.py`
(repository `chiragbiradar/aishopingtest`).

Conventions used throughout this development:

* Python strings are modelled as `List Char` (abbreviated `Str`); Python's
  substring test `x in s` is the executable `substrB`, `str.startswith` is
  `startsB`, and `str.lower()` is `lower` (`Char.toLower` agrees with Python
  on the ASCII range used by the program's vocabulary).
* Python `float` values produced by the program are modelled exactly over `ℚ`:
  every numeric literal the program parses is a decimal literal, and the only
  arithmetic performed on them (a fixed-rate currency multiplication and
  2-decimal rounding) is modelled decimal-exactly.
* The regex character class `\d` is modelled as the ASCII digits and `\s` as
  the ASCII whitespace recognised by `isWsC`; the program's
  vocabulary and the claims under study live entirely in this range.
* The repository file is stored double-encoded: where the author intended
  the rupee sign `₹` (U+20B9), the file — and hence the running program's
  regex and string literals — contains the three characters `â` (U+00E2),
  `‚` (U+201A), `¹` (U+00B9), the UTF-8 bytes of `₹` decoded individually.
  The model uses that three-character literal (`rupeeSym`) exactly as the
  program does; in particular the pattern never matches a real `₹` typed by
  a user.
* `None`-or-value results are `Option`; the caught exception boundary of the
  fetch function takes the outbound call as an explicit `Except`-valued
  parameter, and user-visible `st.error` notices are returned as a list.
-/

abbrev Str := List Char

/-- Convert a Lean string literal to the `List Char` representation. -/
def lit (s : String) : Str := s.toList

/-- The regex class `\\d` (ASCII decimal digits), as a test on the
character's code point. -/
def isDigitC (c : Char) : Bool := 48 ≤ c.toNat && c.toNat ≤ 57

/-- The regex class `\\s` in the ASCII range: space, `\\t`, `\\n`, `\\r`,
`\\f`, `\\v`. -/
def isWsC (c : Char) : Bool :=
  c.toNat = 32 || c.toNat = 9 || c.toNat = 10 || c.toNat = 13 || c.toNat = 12 || c.toNat = 11

/-- ASCII lower-casing of one character (the code-point form of
`Char.toLower`, and of Python `str.lower` on the ASCII range). -/
def toLowerC (c : Char) : Char :=
  if 65 ≤ c.toNat ∧ c.toNat ≤ 90 then Char.ofNat (c.toNat + 32) else c

/-- Python `str.lower()` restricted to the ASCII range (identity elsewhere). -/
def lower (s : Str) : Str := s.map toLowerC

/-- `startsB n h`: `h` starts with `n` (Python `str.startswith`). -/
def startsB : Str → Str → Bool
  | [], _ => true
  | _ :: _, [] => false
  | a :: as, b :: bs => a == b && startsB as bs

/-- `substrB n h`: `n` occurs as a contiguous substring of `h`
(Python's `n in h` on strings). -/
def substrB (n : Str) : Str → Bool
  | [] => startsB n []
  | c :: t => startsB n (c :: t) || substrB n t

/-! ### `extract_price_range` (main.py lines 28–38)

The Python function runs
`re.search(r'(?:between\s+)?(?:â‚¹)?(\d+[,\d]*(?:\.\d+)?)\s*(?:to|-|and)\s*(?:â‚¹)?(\d+[,\d]*(?:\.\d+)?)', text, re.IGNORECASE)`
(the currency glyph in the pattern being the file's three-character
mojibake literal, see `rupeeSym`),
and on a match returns `float(group1.replace(',', ''))` and likewise for
group 2, else `(None, None)`.

For this particular pattern the backtracking search is deterministic: every
quantified piece (`\d+`, `[,\d]*`, `\.\d+`, `\s*`, `\s+`) is followed by a
piece that can never consume a character the quantifier could also have
consumed, so only the greedy (maximal) parse can succeed, and the three
separator alternatives start with pairwise distinct characters.  The
functions below implement that deterministic parse; the scan `searchPrice`
tries the pattern at every start position from the left, exactly as
`re.search` does. -/

/-- Digit or grouping comma: the character class `[,\d]`. -/
def isDC (c : Char) : Bool := isDigitC c || c == ','

/-- Greedy match of the number token `\d+[,\d]*(?:\.\d+)?` at the head of the
input; returns the matched characters and the rest. -/
def numToken (cs : Str) : Option (Str × Str) :=
  let d1 := cs.takeWhile isDigitC
  if d1.isEmpty then none
  else
    let r1 := cs.dropWhile isDigitC
    let d2 := r1.takeWhile isDC
    let r2 := r1.dropWhile isDC
    if r2.head? = some '.' then
      let d3 := r2.tail.takeWhile isDigitC
      if d3.isEmpty then some (d1 ++ d2, r2)
      else some (d1 ++ d2 ++ '.' :: d3, r2.tail.dropWhile isDigitC)
    else some (d1 ++ d2, r2)

/-- Case-insensitive character comparison (`re.IGNORECASE`). -/
def ciEq (a b : Char) : Bool := toLowerC a == toLowerC b

/-- Strip a literal token case-insensitively from the head of the input. -/
def stripCI : Str → Str → Option Str
  | [], cs => some cs
  | _ :: _, [] => none
  | a :: as, c :: cs => if ciEq a c then stripCI as cs else none

/-- The separator alternation `(?:to|-|and)`, tried in the pattern's order. -/
def stripSep (cs : Str) : Option Str :=
  match stripCI (lit "to") cs with
  | some r => some r
  | none =>
    match stripCI (lit "-") cs with
    | some r => some r
    | none => stripCI (lit "and") cs

/-- The currency-glyph literal as the source file actually contains it
(main.py lines 31, 90, 91 and 103): the three characters `â` (U+00E2),
`‚` (U+201A), `¹` (U+00B9) — the double-encoded form of the intended `₹`.
The running program matches this literal, never a real `₹`. -/
def rupeeSym : Str := ['â', '‚', '¹']

/-- The optional currency-glyph group of the pattern (greedy,
deterministic: the glyph literal starts with a non-digit, so skipping a
present glyph can never help). -/
def stripRupee (cs : Str) : Str :=
  if startsB rupeeSym cs then cs.drop rupeeSym.length else cs

/-- The pattern core
`(?:â‚¹)?(\d+[,\d]*(?:\.\d+)?)\s*(?:to|-|and)\s*(?:â‚¹)?(\d+[,\d]*(?:\.\d+)?)`
anchored at the head of the input; returns the two captured groups. -/
def priceCoreAt (cs : Str) : Option (Str × Str) :=
  match numToken (stripRupee cs) with
  | none => none
  | some (g1, r1) =>
    match stripSep (r1.dropWhile isWsC) with
    | none => none
    | some r2 =>
      match numToken (stripRupee (r2.dropWhile isWsC)) with
      | none => none
      | some (g2, _) => some (g1, g2)

/-- The full pattern anchored at the head of the input: the optional prefix
`(?:between\s+)?` is tried greedily first, falling back (as the backtracking
engine does) to the bare core at the same position. -/
def priceAt (cs : Str) : Option (Str × Str) :=
  match stripCI (lit "between") cs with
  | some r =>
    if (r.takeWhile isWsC).isEmpty then priceCoreAt cs
    else
      match priceCoreAt (r.dropWhile isWsC) with
      | some g => some g
      | none => priceCoreAt cs
  | none => priceCoreAt cs

/-- `re.search`: try the pattern at every start position, leftmost first. -/
def searchPrice : Str → Option (Str × Str)
  | [] => none
  | c :: t =>
    match priceAt (c :: t) with
    | some g => some g
    | none => searchPrice t

/-- Numeric value of a digit character. -/
def digitVal (c : Char) : ℕ := c.toNat - 48

/-- Value of a digit string read in base 10. -/
def natVal (cs : Str) : ℕ := cs.foldl (fun a c => 10 * a + digitVal c) 0

/-- Python `s.replace(',', '')`. -/
def stripCommas (cs : Str) : Str := cs.filter (fun c => c != ',')

/-- Python `float` on the strings the program feeds it (comma-stripped
regex groups, hence of the shape `digits ['.' digits]`), modelled exactly
over `ℚ`: the value is `intPart + fracPart / 10 ^ fracDigits`. -/
def pyFloat (cs : Str) : ℚ :=
  let ip := cs.takeWhile isDigitC
  let rest := cs.dropWhile isDigitC
  if rest.head? = some '.' then
    let fd := rest.tail.takeWhile isDigitC
    (natVal ip : ℚ) + (natVal fd : ℚ) / (10 : ℚ) ^ fd.length
  else (natVal ip : ℚ)

/-- `extract_price_range` (main.py lines 28–38). -/
def extract_price_range (s : Str) : Option ℚ × Option ℚ :=
  match searchPrice s with
  | some (g1, g2) => (some (pyFloat (stripCommas g1)), some (pyFloat (stripCommas g2)))
  | none => (none, none)

/-! ### `build_search_query` (main.py lines 41–76) -/

/-- The fixed colour vocabulary (main.py line 71 and line 183). -/
def colors : List Str :=
  [lit "silver", lit "space grey", lit "space gray", lit "gold", lit "black",
   lit "white", lit "blue", lit "green", lit "purple", lit "red"]

/-- `build_search_query` (main.py lines 41–76), written as the source's
sequence of conditional appends.  Note the screen-size checks test `"16"`
etc. against the *unlowered* preference text (as the source does), the
storage and RAM checks are `elif` chains, and each detected colour appends
`" " + color`. -/
def build_search_query (base prefs : Str) : Str :=
  let pl := lower prefs
  let q := base
  let q := if substrB (lit "pro") pl then q ++ lit " Pro" else q
  let q := if substrB (lit "air") pl then q ++ lit " Air" else q
  let q := if substrB (lit "16") prefs || substrB (lit "16-inch") pl then q ++ lit " 16-inch" else q
  let q := if substrB (lit "14") prefs || substrB (lit "14-inch") pl then q ++ lit " 14-inch" else q
  let q := if substrB (lit "13") prefs || substrB (lit "13-inch") pl then q ++ lit " 13-inch" else q
  let q :=
    if substrB (lit "512") prefs then q ++ lit " 512GB"
    else if substrB (lit "1tb") pl || substrB (lit "1 tb") pl then q ++ lit " 1TB"
    else if substrB (lit "2tb") pl || substrB (lit "2 tb") pl then q ++ lit " 2TB"
    else q
  let q :=
    if substrB (lit "16gb") pl || substrB (lit "16 gb") pl then q ++ lit " 16GB"
    else if substrB (lit "32gb") pl || substrB (lit "32 gb") pl then q ++ lit " 32GB"
    else q
  colors.foldl (fun acc c => if substrB c pl then acc ++ ' ' :: c else acc) q

/-- The `" Pro"` suffix appended by `build_search_query` when detected. -/
def proSuffix (prefs : Str) : Str :=
  if substrB (lit "pro") (lower prefs) then lit " Pro" else []

/-- The `" Air"` suffix appended by `build_search_query` when detected. -/
def airSuffix (prefs : Str) : Str :=
  if substrB (lit "air") (lower prefs) then lit " Air" else []

/-- The `" 16-inch"` suffix appended by `build_search_query` when detected. -/
def size16Suffix (prefs : Str) : Str :=
  if substrB (lit "16") prefs || substrB (lit "16-inch") (lower prefs) then lit " 16-inch" else []

/-- The `" 14-inch"` suffix appended by `build_search_query` when detected. -/
def size14Suffix (prefs : Str) : Str :=
  if substrB (lit "14") prefs || substrB (lit "14-inch") (lower prefs) then lit " 14-inch" else []

/-- The `" 13-inch"` suffix appended by `build_search_query` when detected. -/
def size13Suffix (prefs : Str) : Str :=
  if substrB (lit "13") prefs || substrB (lit "13-inch") (lower prefs) then lit " 13-inch" else []

/-- The storage suffix appended by `build_search_query`: an `elif` chain, so
at most one of `" 512GB"`, `" 1TB"`, `" 2TB"` is appended, in that priority
order (main.py lines 56–62). -/
def storageSuffix (prefs : Str) : Str :=
  if substrB (lit "512") prefs then lit " 512GB"
  else if substrB (lit "1tb") (lower prefs) || substrB (lit "1 tb") (lower prefs) then lit " 1TB"
  else if substrB (lit "2tb") (lower prefs) || substrB (lit "2 tb") (lower prefs) then lit " 2TB"
  else []

/-- The RAM suffix appended by `build_search_query`: an `elif` chain with
priority `" 16GB"` then `" 32GB"` (main.py lines 64–68). -/
def ramSuffix (prefs : Str) : Str :=
  if substrB (lit "16gb") (lower prefs) || substrB (lit "16 gb") (lower prefs) then lit " 16GB"
  else if substrB (lit "32gb") (lower prefs) || substrB (lit "32 gb") (lower prefs) then lit " 32GB"
  else []

/-- The concatenated colour suffixes appended by `build_search_query`
(main.py lines 70–74). -/
def colorSuffixes (prefs : Str) : Str :=
  colors.foldl (fun acc c => if substrB c (lower prefs) then acc ++ ' ' :: c else acc) []

/-! ### `filter_results` (main.py lines 144–203)

A listing is a Python dict; the model keeps the fields the program logic
reads or writes.  Optional fields stand for possibly-missing dict keys. -/

structure Listing where
  title : Str := []
  source : Str := []
  price : Option Str := none
  oldPrice : Option Str := none
  matchScore : Int := 0
deriving DecidableEq

/-- The fixed preferred-seller vocabulary (main.py line 189). -/
def preferredSellers : List Str :=
  [lit "amazon", lit "flipkart", lit "croma", lit "vijay sales",
   lit "reliance digital", lit "apple"]

/-- One scoring row of the rubric: `+5` when `"pro"` occurs in the lowered
preference text and in the lowered listing title (main.py lines 155–156). -/
def rowPro (prefs title : Str) : Int :=
  if substrB (lit "pro") (lower prefs) && substrB (lit "pro") (lower title) then 5 else 0

/-- `+5` for `"air"` in preference text and title (main.py lines 157–158). -/
def rowAir (prefs title : Str) : Int :=
  if substrB (lit "air") (lower prefs) && substrB (lit "air") (lower title) then 5 else 0

/-- `+4` for the `"16"` screen-size marker (main.py lines 161–162). -/
def rowSize16 (prefs title : Str) : Int :=
  if substrB (lit "16") (lower prefs) &&
      (substrB (lit "16") (lower title) || substrB (lit "16-inch") (lower title)) then 4 else 0

/-- `+4` for the `"14"` screen-size marker (main.py lines 163–164). -/
def rowSize14 (prefs title : Str) : Int :=
  if substrB (lit "14") (lower prefs) &&
      (substrB (lit "14") (lower title) || substrB (lit "14-inch") (lower title)) then 4 else 0

/-- `+4` for the `"13"` screen-size marker (main.py lines 165–166). -/
def rowSize13 (prefs title : Str) : Int :=
  if substrB (lit "13") (lower prefs) &&
      (substrB (lit "13") (lower title) || substrB (lit "13-inch") (lower title)) then 4 else 0

/-- `+3` for the `"512"` storage marker (main.py lines 169–170). -/
def rowStorage512 (prefs title : Str) : Int :=
  if substrB (lit "512") (lower prefs) && substrB (lit "512") (lower title) then 3 else 0

/-- `+3` for the 1TB storage marker (main.py lines 171–172). -/
def rowStorage1TB (prefs title : Str) : Int :=
  if (substrB (lit "1tb") (lower prefs) || substrB (lit "1 tb") (lower prefs)) &&
      (substrB (lit "1tb") (lower title) || substrB (lit "1 tb") (lower title)) then 3 else 0

/-- `+3` for the 2TB storage marker (main.py lines 173–174). -/
def rowStorage2TB (prefs title : Str) : Int :=
  if (substrB (lit "2tb") (lower prefs) || substrB (lit "2 tb") (lower prefs)) &&
      (substrB (lit "2tb") (lower title) || substrB (lit "2 tb") (lower title)) then 3 else 0

/-- `+2` for the 16GB RAM marker (main.py lines 177–178). -/
def rowRam16 (prefs title : Str) : Int :=
  if (substrB (lit "16gb") (lower prefs) || substrB (lit "16 gb") (lower prefs)) &&
      (substrB (lit "16gb") (lower title) || substrB (lit "16 gb") (lower title)) then 2 else 0

/-- `+2` for the 32GB RAM marker (main.py lines 179–180). -/
def rowRam32 (prefs title : Str) : Int :=
  if (substrB (lit "32gb") (lower prefs) || substrB (lit "32 gb") (lower prefs)) &&
      (substrB (lit "32gb") (lower title) || substrB (lit "32 gb") (lower title)) then 2 else 0

/-- `+3` per matching colour name (main.py lines 183–186). -/
def rowColors (prefs title : Str) : Int :=
  (colors.map fun c =>
    if substrB c (lower prefs) && substrB c (lower title) then (3 : Int) else 0).sum

/-- `+3` per preferred seller occurring in the lowered source
(main.py lines 189–192). -/
def rowSellers (source : Str) : Int :=
  (preferredSellers.map fun c => if substrB c (lower source) then (3 : Int) else 0).sum

/-- `−10` when the preference text says "new" but the title says
"refurbished" or "used" (main.py lines 195–196). -/
def rowNewPenalty (prefs title : Str) : Int :=
  if substrB (lit "new") (lower prefs) &&
      (substrB (lit "refurbished") (lower title) || substrB (lit "used") (lower title))
  then -10 else 0

/-- The score accumulation of `filter_results` (main.py lines 149–196),
written as the source's sequence of conditional `score +=` updates. -/
def scoreOf (product : Listing) (prefs : Str) : Int :=
  let pl := lower prefs
  let tl := lower product.title
  let sl := lower product.source
  let s : Int := 0
  let s := if substrB (lit "pro") pl && substrB (lit "pro") tl then s + 5 else s
  let s := if substrB (lit "air") pl && substrB (lit "air") tl then s + 5 else s
  let s := if substrB (lit "16") pl && (substrB (lit "16") tl || substrB (lit "16-inch") tl) then s + 4 else s
  let s := if substrB (lit "14") pl && (substrB (lit "14") tl || substrB (lit "14-inch") tl) then s + 4 else s
  let s := if substrB (lit "13") pl && (substrB (lit "13") tl || substrB (lit "13-inch") tl) then s + 4 else s
  let s := if substrB (lit "512") pl && substrB (lit "512") tl then s + 3 else s
  let s := if (substrB (lit "1tb") pl || substrB (lit "1 tb") pl) &&
      (substrB (lit "1tb") tl || substrB (lit "1 tb") tl) then s + 3 else s
  let s := if (substrB (lit "2tb") pl || substrB (lit "2 tb") pl) &&
      (substrB (lit "2tb") tl || substrB (lit "2 tb") tl) then s + 3 else s
  let s := if (substrB (lit "16gb") pl || substrB (lit "16 gb") pl) &&
      (substrB (lit "16gb") tl || substrB (lit "16 gb") tl) then s + 2 else s
  let s := if (substrB (lit "32gb") pl || substrB (lit "32 gb") pl) &&
      (substrB (lit "32gb") tl || substrB (lit "32 gb") tl) then s + 2 else s
  let s := colors.foldl (fun acc c => if substrB c pl && substrB c tl then acc + 3 else acc) s
  let s := preferredSellers.foldl (fun acc c => if substrB c sl then acc + 3 else acc) s
  let s := if substrB (lit "new") pl &&
      (substrB (lit "refurbished") tl || substrB (lit "used") tl) then s - 10 else s
  s

/-- Assign the computed score to a listing (the in-place
`product["match_score"] = score` of main.py line 199). -/
def assignScore (prefs : Str) (p : Listing) : Listing :=
  { p with matchScore := scoreOf p prefs }

/-- Stable descending insertion: place `x` before the first element whose
score is `≤` its own, keeping every earlier (strictly greater) element in
front.  This is the unique stable descending order, i.e. the behaviour of
Python's `sorted(..., key=score, reverse=True)` (Timsort is stable, and
`reverse=True` keeps ties in original order). -/
def insertDesc (x : Listing) : List Listing → List Listing
  | [] => [x]
  | y :: ys => if y.matchScore ≤ x.matchScore then x :: y :: ys else y :: insertDesc x ys

/-- Stable sort by `matchScore` descending (Python's
`sorted(..., key=lambda x: x.get("match_score", 0), reverse=True)`). -/
def sortDesc (l : List Listing) : List Listing := l.foldr insertDesc []

/-- `filter_results` (main.py lines 144–203): score every listing, then
return all of them sorted by score descending (stable). -/
def filter_results (products : List Listing) (prefs : Str) : List Listing :=
  sortDesc (products.map (assignScore prefs))

/-! ### `ensure_rupee_format` (main.py lines 85–107) -/

/-- Greedy match of `[\d,]+\.?\d*` at the head of the input (the numeric
scan of `ensure_rupee_format`, main.py line 96); deterministic for the
same reason as the price pattern. -/
def numSearchAt (cs : Str) : Option Str :=
  let d1 := cs.takeWhile isDC
  if d1.isEmpty then none
  else
    let r1 := cs.dropWhile isDC
    if r1.head? = some '.' then some (d1 ++ '.' :: r1.tail.takeWhile isDigitC)
    else some d1

/-- `re.search(r'[\d,]+\.?\d*', s)`: leftmost match. -/
def numSearch : Str → Option Str
  | [] => none
  | c :: t =>
    match numSearchAt (c :: t) with
    | some g => some g
    | none => numSearch t

/-- Python `float` as a partial parse (raises `ValueError`, modelled as
`none`, unless the comma-stripped input is `digits ['.' digits]` with at
least one digit). -/
def tryFloat (cs : Str) : Option ℚ :=
  let ip := cs.takeWhile isDigitC
  let rest := cs.dropWhile isDigitC
  if rest.isEmpty then
    if ip.isEmpty then none else some (natVal ip : ℚ)
  else if rest.head? = some '.' && rest.tail.all isDigitC
      && !(ip.isEmpty && rest.tail.isEmpty) then
    some ((natVal ip : ℚ) + (natVal rest.tail : ℚ) / (10 : ℚ) ^ rest.tail.length)
  else none

/-- Decimal digit character of a value `< 10`. -/
def digitChar (d : ℕ) : Char :=
  match d with
  | 0 => '0' | 1 => '1' | 2 => '2' | 3 => '3' | 4 => '4'
  | 5 => '5' | 6 => '6' | 7 => '7' | 8 => '8' | _ => '9' 

/-- Big-endian decimal digits of a natural number. -/
def natDigits (n : ℕ) : Str :=
  if _h : n < 10 then [digitChar n]
  else natDigits (n / 10) ++ [digitChar (n % 10)]
termination_by n
decreasing_by exact Nat.div_lt_self (by omega) (by omega)

/-- Insert a comma after every third character of a little-endian digit
string (the `,` grouping of Python's `format(v, ',.2f')`). -/
def commaGroupRev (ds : Str) : Str :=
  if _h : ds.length ≤ 3 then ds
  else ds.take 3 ++ ',' :: commaGroupRev (ds.drop 3)
termination_by ds.length
decreasing_by simp only [List.length_drop]; omega

/-- Three-digit comma grouping of a big-endian digit string. -/
def commaGroup (ds : Str) : Str := (commaGroupRev ds.reverse).reverse

/-- Two-digit zero-padded decimal rendering (the cents of `'.2f'`). -/
def pad2 (n : ℕ) : Str := if n < 10 then '0' :: natDigits n else natDigits n

/-- Python `f"{v:,.2f}"` for the nonnegative values arising here: round to
two decimal places, group the integer part by threes with commas. -/
def formatMoney (v : ℚ) : Str :=
  let n := (round (v * 100)).toNat
  commaGroup (natDigits (n / 100)) ++ '.' :: pad2 (n % 100)

/-- The fixed USD→INR conversion rate (main.py line 99). -/
def usdToInr : ℚ := 83.5

/-- `ensure_rupee_format` (main.py lines 85–107): empty or `"N/A"` prices
normalise to `"N/A"`; a missing leading glyph is prepended; a price
containing `$` is converted at the fixed rate and re-rendered, with a
failed numeric scan or parse silently keeping the string (the
`try/except: pass`). -/
def ensure_rupee_format (price : Str) : Str :=
  if price = [] ∨ price = lit "N/A" then lit "N/A"
  else
    let p1 := if startsB rupeeSym price then price else rupeeSym ++ price
    if substrB (lit "$") p1 then
      match numSearch p1 with
      | none => p1
      | some g =>
        match tryFloat (stripCommas g) with
        | none => p1
        | some v => rupeeSym ++ formatMoney (v * usdToInr)
    else p1

/-! ### `fetch_shopping_results` (main.py lines 110–141)

The outbound `GoogleSearch(params).get_dict()` call is a collaborator: the
model takes it as a function from the request parameters to either a result
list or a raised error (`Except`).  The function returns the listing list
together with the list of user-visible error notices it displayed. -/

structure SearchParams where
  engine : Str
  q : Str
  api_key : Str
  location : Str
  gl : Str
  hl : Str
  currency : Str
  priceRange : Option (ℚ × ℚ)
deriving DecidableEq

/-- The request parameters built by `fetch_shopping_results` (main.py lines
113–125); the `price_range` parameter is present exactly when both bounds
are. -/
def mkParams (apiKey query : Str) (minP maxP : Option ℚ) : SearchParams :=
  { engine := lit "google_shopping", q := query, api_key := apiKey,
    location := lit "New Delhi,Delhi,India", gl := lit "in", hl := lit "en",
    currency := lit "INR",
    priceRange :=
      match minP, maxP with
      | some a, some b => some (a, b)
      | _, _ => none }

/-- Normalise the optional `price` and `old_price` fields of one listing
(main.py lines 132–136). -/
def normalizePrices (p : Listing) : Listing :=
  { p with price := p.price.map ensure_rupee_format,
           oldPrice := p.oldPrice.map ensure_rupee_format }

/-- `fetch_shopping_results` (main.py lines 110–141): on success, the
returned listings with normalised prices and no error notice; on any raised
error, an empty list plus the `st.error` notice. -/
def fetch_shopping_results (api : SearchParams → Except Str (List Listing))
    (apiKey query : Str) (minP maxP : Option ℚ) : List Listing × List Str :=
  match api (mkParams apiKey query minP maxP) with
  | .ok results => (results.map normalizePrices, [])
  | .error e => ([], [lit "Error fetching shopping results: " ++ e])

/-! ### The well-formed price-phrase grammar (spec §8, first property)

These definitions follow the spec's words: a numeric literal with optional
digit-grouping separators and optional decimal part, two such literals
joined by `to`/`and`/`-` with optional whitespace, an optional leading
`between `, and an optional currency glyph on either number. -/

/-- Grouped integer digits: nonempty, starting with a digit, all characters
digits or grouping commas. -/
def groupedDigitsB (cs : Str) : Bool :=
  match cs with
  | [] => false
  | c :: _ => isDigitC c && cs.all isDC

/-- A numeric literal: grouped integer digits and an optional fractional
digit part. -/
structure NumLit where
  intPart : Str
  fracPart : Option Str

/-- The written form of a numeric literal. -/
def NumLit.rep (n : NumLit) : Str :=
  n.intPart ++ (match n.fracPart with | some f => '.' :: f | none => [])

/-- Well-formedness of a numeric literal. -/
def NumLit.wfB (n : NumLit) : Bool :=
  groupedDigitsB n.intPart &&
    (match n.fracPart with
     | some f => !f.isEmpty && f.all isDigitC
     | none => true)

/-- The value of the separator-stripped numeric literal, as the program
parses it. -/
def NumLit.val (n : NumLit) : ℚ := pyFloat (stripCommas n.rep)

/-- The separator words admitted by the phrase grammar. -/
def sepB (s : Str) : Bool := s == lit "to" || s == lit "-" || s == lit "and"

/-- A well-formed price-range phrase
`[between w0] [glyph] A w1 sep w2 [glyph] B`, where `glyph` is the
program's currency-glyph literal `rupeeSym`. -/
def pricePhrase (betw r1 r2 : Bool) (w0 w1 w2 sep : Str) (A B : NumLit) : Str :=
  (if betw then lit "between" ++ w0 else []) ++ (if r1 then rupeeSym else []) ++ A.rep
    ++ w1 ++ sep ++ w2 ++ (if r2 then rupeeSym else []) ++ B.rep

/-- The end-to-end preference text of the spec's scenario (an apostrophe is
spliced in by character code). -/
def prefC1 : Str :=
  lit "Do you prefer MacBook Pro or MacBook Air?: Pro. What screen size...?: 16-inch. What"
    ++ [Char.ofNat 39]
    ++ lit "s your budget...?: between ₹1,50,000 and ₹2,00,000."

/-- The scenario listing: title `"MacBook Pro 16-inch 512GB Silver"` from
source `"Amazon"`. -/
def listingC1 : Listing :=
  { title := lit "MacBook Pro 16-inch 512GB Silver", source := lit "Amazon" }

/-! ## Character-class facts -/

theorem char_ne_of_toNat_ne {a b : Char} (h : a.toNat ≠ b.toNat) : a ≠ b :=
  fun he => h (he ▸ rfl)

theorem char_beq_false {a b : Char} (h : a.toNat ≠ b.toNat) : (a == b) = false :=
  beq_eq_false_iff_ne.mpr (char_ne_of_toNat_ne h)

theorem isDigitC_toNat {c : Char} (h : isDigitC c = true) : 48 ≤ c.toNat ∧ c.toNat ≤ 57 := by
  simpa [isDigitC] using h

theorem isWsC_toNat {c : Char} (h : isWsC c = true) :
    c.toNat = 32 ∨ c.toNat = 9 ∨ c.toNat = 10 ∨ c.toNat = 13 ∨ c.toNat = 12 ∨ c.toNat = 11 := by
  simp only [isWsC, Bool.or_eq_true, decide_eq_true_eq] at h
  omega

theorem toLowerC_of_not_upper {c : Char} (h : ¬(65 ≤ c.toNat ∧ c.toNat ≤ 90)) :
    toLowerC c = c := by
  rw [toLowerC, if_neg h]

theorem toLowerC_digit {c : Char} (h : isDigitC c = true) : toLowerC c = c :=
  toLowerC_of_not_upper (by have := isDigitC_toNat h; omega)

theorem isDigitC_not_dc_false {c : Char} (h : isDigitC c = true) : isDC c = true := by
  simp [isDC, h]

theorem ws_not_digit {c : Char} (h : isWsC c = true) : isDigitC c = false := by
  have h1 := isWsC_toNat h
  cases hd : isDigitC c with
  | false => rfl
  | true => exact absurd (isDigitC_toNat hd) (by omega)

theorem ws_not_dc {c : Char} (h : isWsC c = true) : isDC c = false := by
  have h1 := isWsC_toNat h
  have h2 := ws_not_digit h
  have h3 : (c == ',') = false := by
    apply char_beq_false
    have h4 : (',' : Char).toNat = 44 := by decide
    omega
  simp [isDC, h2, h3]

theorem ws_ne_dot {c : Char} (h : isWsC c = true) : c ≠ '.' := by
  have h1 := isWsC_toNat h
  have h2 : ('.' : Char).toNat = 46 := by decide
  exact char_ne_of_toNat_ne (by omega)

theorem digit_not_ws {c : Char} (h : isDigitC c = true) : isWsC c = false := by
  have h1 := isDigitC_toNat h
  cases hw : isWsC c with
  | false => rfl
  | true => exact absurd (isWsC_toNat hw) (by omega)

theorem digit_ne_dot {c : Char} (h : isDigitC c = true) : c ≠ '.' := by
  have h1 := isDigitC_toNat h
  have h2 : ('.' : Char).toNat = 46 := by decide
  exact char_ne_of_toNat_ne (by omega)

/-! ## Substring theory for `substrB` -/

theorem startsB_iff (n : Str) : ∀ h : Str, startsB n h = true ↔ ∃ r, h = n ++ r := by
  induction n with
  | nil => intro h; simp [startsB]
  | cons a as ih =>
    intro h
    cases h with
    | nil => simp [startsB]
    | cons b bs =>
      simp only [startsB, Bool.and_eq_true, beq_iff_eq, ih, List.cons_append, List.cons.injEq]
      constructor
      · rintro ⟨rfl, r, rfl⟩; exact ⟨r, rfl, rfl⟩
      · rintro ⟨r, rfl, rfl⟩; exact ⟨rfl, r, rfl⟩

theorem startsB_self (n : Str) : ∀ r : Str, startsB n (n ++ r) = true := by
  induction n with
  | nil => intro r; rfl
  | cons a as ih =>
    intro r
    simp only [List.cons_append, startsB, beq_self_eq_true, Bool.true_and]
    exact ih r

theorem substrB_iff (n : Str) : ∀ h : Str, substrB n h = true ↔ ∃ s t, h = s ++ n ++ t := by
  intro h
  induction h with
  | nil =>
    rw [substrB, startsB_iff]
    constructor
    · rintro ⟨r, hr⟩
      rcases List.append_eq_nil.mp hr.symm with ⟨rfl, rfl⟩
      exact ⟨[], [], rfl⟩
    · rintro ⟨s, t, hst⟩
      rcases List.append_eq_nil.mp hst.symm with ⟨hsn, rfl⟩
      rcases List.append_eq_nil.mp hsn with ⟨rfl, rfl⟩
      exact ⟨[], rfl⟩
  | cons c t ih =>
    rw [substrB]
    simp only [Bool.or_eq_true, startsB_iff, ih]
    constructor
    · rintro (⟨r, hr⟩ | ⟨s, u, hu⟩)
      · exact ⟨[], r, by simpa using hr⟩
      · exact ⟨c :: s, u, by simp [hu]⟩
    · rintro ⟨s, u, hsu⟩
      cases s with
      | nil => exact Or.inl ⟨u, by simpa using hsu⟩
      | cons x xs =>
        simp only [List.cons_append] at hsu
        injection hsu with h1 h2
        exact Or.inr ⟨xs, u, h2⟩

theorem substrB_append_right {n h : Str} (u : Str) (hs : substrB n h = true) :
    substrB n (h ++ u) = true := by
  rcases (substrB_iff n h).mp hs with ⟨s, t, rfl⟩
  exact (substrB_iff n _).mpr ⟨s, t ++ u, by simp⟩

theorem substrB_trans {a b c : Str} (h1 : substrB a b = true) (h2 : substrB b c = true) :
    substrB a c = true := by
  rcases (substrB_iff _ _).mp h1 with ⟨s1, t1, rfl⟩
  rcases (substrB_iff _ _).mp h2 with ⟨s2, t2, rfl⟩
  exact (substrB_iff _ _).mpr ⟨s2 ++ s1, t1 ++ t2, by simp⟩

theorem lower_append (a b : Str) : lower (a ++ b) = lower a ++ lower b := by
  simp [lower]

theorem substrB_lower_mono {n t : Str} (u : Str) (h : substrB n (lower t) = true) :
    substrB n (lower (t ++ u)) = true := by
  rw [lower_append]
  exact substrB_append_right _ h

theorem substrB_singleton {c : Char} {h : Str} : substrB [c] h = true ↔ c ∈ h := by
  rw [substrB_iff]
  constructor
  · rintro ⟨s, t, rfl⟩; simp
  · intro hc
    rcases List.append_of_mem hc with ⟨s, t, rfl⟩
    exact ⟨s, t, by simp⟩

/-! ## `takeWhile`/`dropWhile` decomposition helpers -/

/-- The head of `r` (if any) fails `p`: appending `r` cannot extend a
`takeWhile p` scan. -/
def headStop (p : Char → Bool) : Str → Prop
  | [] => True
  | c :: _ => p c = false

theorem takeWhile_app_stop {p : Char → Bool} (xs : Str) {r : Str} (hr : headStop p r) :
    (xs ++ r).takeWhile p = xs.takeWhile p ∧ (xs ++ r).dropWhile p = xs.dropWhile p ++ r := by
  induction xs with
  | nil =>
    cases r with
    | nil => simp
    | cons c cs =>
      have hc : p c = false := hr
      simp [List.takeWhile_cons, List.dropWhile_cons, hc]
  | cons x xs ih =>
    by_cases hx : p x = true
    · simp [List.takeWhile_cons, List.dropWhile_cons, hx, ih]
    · have hx' : p x = false := by simpa using hx
      simp [List.takeWhile_cons, List.dropWhile_cons, hx']

theorem takeWhile_all_eq {p : Char → Bool} {xs : Str} (h : ∀ c ∈ xs, p c = true) :
    xs.takeWhile p = xs ∧ xs.dropWhile p = [] := by
  induction xs with
  | nil => simp
  | cons x t ih =>
    have hx := h x (by simp)
    have iht := ih fun c hc => h c (by simp [hc])
    simp [List.takeWhile_cons, List.dropWhile_cons, hx, iht]

/-! ## Stable descending sort: permutation, order, stability -/

theorem insertDesc_perm (x : Listing) (l : List Listing) :
    (insertDesc x l).Perm (x :: l) := by
  induction l with
  | nil => exact .refl _
  | cons y ys ih =>
    rw [insertDesc]
    split
    · exact .refl _
    · exact (ih.cons y).trans (List.Perm.swap x y ys)

theorem sortDesc_perm (l : List Listing) : (sortDesc l).Perm l := by
  induction l with
  | nil => exact .refl _
  | cons a l ih =>
    show (insertDesc a (sortDesc l)).Perm (a :: l)
    exact (insertDesc_perm a (sortDesc l)).trans (ih.cons a)

theorem insertDesc_pairwise {x : Listing} {l : List Listing}
    (h : l.Pairwise fun a b => b.matchScore ≤ a.matchScore) :
    (insertDesc x l).Pairwise fun a b => b.matchScore ≤ a.matchScore := by
  induction l with
  | nil => simp [insertDesc]
  | cons y ys ih =>
    rw [List.pairwise_cons] at h
    obtain ⟨hy, hys⟩ := h
    rw [insertDesc]
    split
    · next hle =>
      refine List.Pairwise.cons ?_ (List.Pairwise.cons hy hys)
      intro z hz
      rcases List.mem_cons.mp hz with rfl | hz'
      · exact hle
      · exact le_trans (hy z hz') hle
    · next hgt =>
      refine List.Pairwise.cons ?_ (ih hys)
      intro z hz
      have hz' : z ∈ x :: ys := (insertDesc_perm x ys).subset hz
      rcases List.mem_cons.mp hz' with rfl | hz'
      · omega
      · exact hy z hz'

theorem sortDesc_pairwise (l : List Listing) :
    (sortDesc l).Pairwise fun a b => b.matchScore ≤ a.matchScore := by
  induction l with
  | nil => simp [sortDesc]
  | cons a l ih => exact insertDesc_pairwise ih

theorem insertDesc_filter (x : Listing) (l : List Listing) (s : Int) :
    (insertDesc x l).filter (fun p => p.matchScore == s) =
      if x.matchScore == s then x :: l.filter (fun p => p.matchScore == s)
      else l.filter (fun p => p.matchScore == s) := by
  induction l with
  | nil => simp [insertDesc, List.filter_cons]
  | cons y ys ih =>
    rw [insertDesc]
    split
    · next hle => simp [List.filter_cons]
    · next hgt =>
      rw [List.filter_cons, ih]
      by_cases hx : x.matchScore = s
      · have hxb : (x.matchScore == s) = true := beq_iff_eq.mpr hx
        have hyb : (y.matchScore == s) = false := beq_eq_false_iff_ne.mpr (by omega)
        simp [hxb, hyb, List.filter_cons]
      · have hxb : (x.matchScore == s) = false := beq_eq_false_iff_ne.mpr hx
        simp [hxb, List.filter_cons]

theorem sortDesc_filter (l : List Listing) (s : Int) :
    (sortDesc l).filter (fun p => p.matchScore == s) =
      l.filter (fun p => p.matchScore == s) := by
  induction l with
  | nil => rfl
  | cons a l ih =>
    show (insertDesc a (sortDesc l)).filter _ = _
    rw [insertDesc_filter, List.filter_cons]
    cases ha : (a.matchScore == s) <;> simp [ha, ih]

/-! ## Decomposing the sequential accumulations into independent parts -/

theorem ite_add_shift (b : Bool) (a k : Int) :
    (if b then a + k else a) = a + (if b then k else 0) := by
  cases b <;> simp

theorem ite_sub_shift (b : Bool) (a : Int) :
    (if b then a - 10 else a) = a + (if b then -10 else 0) := by
  cases b <;> simp [sub_eq_add_neg]

theorem ite_append_shift (b : Bool) (q tk : Str) :
    (if b then q ++ tk else q) = q ++ (if b then tk else []) := by
  cases b <;> simp

theorem ite_append_shift2 (b1 b2 : Bool) (q t1 t2 : Str) :
    (if b1 then q ++ t1 else if b2 then q ++ t2 else q) =
      q ++ (if b1 then t1 else if b2 then t2 else []) := by
  cases b1 <;> cases b2 <;> simp

theorem ite_append_shift3 (b1 b2 b3 : Bool) (q t1 t2 t3 : Str) :
    (if b1 then q ++ t1 else if b2 then q ++ t2 else if b3 then q ++ t3 else q) =
      q ++ (if b1 then t1 else if b2 then t2 else if b3 then t3 else []) := by
  cases b1 <;> cases b2 <;> cases b3 <;> simp

theorem foldl_colorAppend (pl : Str) (l : List Str) (q : Str) :
    l.foldl (fun acc c => if substrB c pl then acc ++ ' ' :: c else acc) q =
      q ++ l.foldl (fun acc c => if substrB c pl then acc ++ ' ' :: c else acc) [] := by
  induction l generalizing q with
  | nil => simp
  | cons c cs ih =>
    rw [List.foldl_cons, List.foldl_cons, ih, ih (if substrB c pl then [] ++ ' ' :: c else [])]
    by_cases h : substrB c pl = true <;> simp [h, List.append_assoc]

theorem scoreOf_eq_rows (p : Listing) (t : Str) :
    scoreOf p t =
      rowPro t p.title + rowAir t p.title + rowSize16 t p.title + rowSize14 t p.title
        + rowSize13 t p.title + rowStorage512 t p.title + rowStorage1TB t p.title
        + rowStorage2TB t p.title + rowRam16 t p.title + rowRam32 t p.title
        + rowColors t p.title + rowSellers p.source + rowNewPenalty t p.title := by
  simp only [scoreOf, rowPro, rowAir, rowSize16, rowSize14, rowSize13, rowStorage512,
    rowStorage1TB, rowStorage2TB, rowRam16, rowRam32, rowColors, rowSellers, rowNewPenalty,
    colors, preferredSellers, List.foldl_cons, List.foldl_nil, List.map_cons, List.map_nil,
    List.sum_cons, List.sum_nil, ite_add_shift, ite_sub_shift]
  ring

theorem build_search_query_decomp (base prefs : Str) :
    build_search_query base prefs =
      base ++ proSuffix prefs ++ airSuffix prefs ++ size16Suffix prefs ++ size14Suffix prefs
        ++ size13Suffix prefs ++ storageSuffix prefs ++ ramSuffix prefs ++ colorSuffixes prefs := by
  simp only [build_search_query]
  rw [foldl_colorAppend]
  rw [ite_append_shift2]
  rw [ite_append_shift3]
  simp only [ite_append_shift, proSuffix, airSuffix, size16Suffix, size14Suffix, size13Suffix,
    storageSuffix, ramSuffix, colorSuffixes]

/-! ## Characters produced by the money formatter -/

theorem digitChar_isDigit (d : ℕ) : isDigitC (digitChar d) = true := by
  unfold digitChar
  split <;> decide

theorem natDigits_digits (n : ℕ) : ∀ c ∈ natDigits n, isDigitC c = true := by
  induction n using Nat.strong_induction_on with
  | _ n ih =>
    intro c hc
    rw [natDigits] at hc
    split at hc
    · next _ =>
      rcases List.mem_singleton.mp hc with rfl
      exact digitChar_isDigit n
    · next h =>
      rcases List.mem_append.mp hc with hc | hc
      · exact ih (n / 10) (Nat.div_lt_self (by omega) (by omega)) c hc
      · rcases List.mem_singleton.mp hc with rfl
        exact digitChar_isDigit _

theorem commaGroupRev_mem :
    ∀ (k : ℕ) (ds : Str), ds.length ≤ k → ∀ c ∈ commaGroupRev ds, c ∈ ds ∨ c = ',' := by
  intro k
  induction k with
  | zero =>
    intro ds hds c hc
    have hds0 : ds.length ≤ 3 := by omega
    rw [commaGroupRev, dif_pos hds0] at hc
    exact Or.inl hc
  | succ k ih =>
    intro ds hds c hc
    by_cases h3 : ds.length ≤ 3
    · rw [commaGroupRev, dif_pos h3] at hc
      exact Or.inl hc
    · rw [commaGroupRev, dif_neg h3] at hc
      rcases List.mem_append.mp hc with hc | hc
      · exact Or.inl (List.take_subset _ _ hc)
      · rcases List.mem_cons.mp hc with rfl | hc
        · exact Or.inr rfl
        · rcases ih (ds.drop 3) (by simp only [List.length_drop]; omega) c hc with h | h
          · exact Or.inl (List.drop_subset _ _ h)
          · exact Or.inr h

theorem pad2_digits (n : ℕ) : ∀ c ∈ pad2 n, isDigitC c = true := by
  intro c hc
  rw [pad2] at hc
  split at hc
  · rcases List.mem_cons.mp hc with rfl | hc
    · decide
    · exact natDigits_digits _ c hc
  · exact natDigits_digits _ c hc

theorem formatMoney_chars (v : ℚ) :
    ∀ c ∈ formatMoney v, isDigitC c = true ∨ c = ',' ∨ c = '.' := by
  intro c hc
  simp only [formatMoney] at hc
  rcases List.mem_append.mp hc with hc | hc
  · rw [commaGroup, List.mem_reverse] at hc
    rcases commaGroupRev_mem _ _ le_rfl c hc with h | h
    · rw [List.mem_reverse] at h
      exact Or.inl (natDigits_digits _ c h)
    · exact Or.inr (Or.inl h)
  · rcases List.mem_cons.mp hc with rfl | hc
    · exact Or.inr (Or.inr rfl)
    · exact Or.inl (pad2_digits _ c hc)

theorem no_dollar_formatMoney (v : ℚ) :
    substrB (lit "$") (rupeeSym ++ formatMoney v) = false := by
  have hnm : ¬('$' ∈ rupeeSym ++ formatMoney v) := by
    intro hmem
    rcases List.mem_append.mp hmem with h | h
    · exact absurd h (by decide)
    · rcases formatMoney_chars v _ h with h | h | h
      · exact absurd h (by decide)
      · exact absurd h (by decide)
      · exact absurd h (by decide)
  have hl : lit "$" = ['$'] := rfl
  cases hb : substrB (lit "$") (rupeeSym ++ formatMoney v) with
  | false => rfl
  | true =>
    rw [hl] at hb
    exact absurd (substrB_singleton.mp hb) hnm

/-! ## `ensure_rupee_format` computation lemmas and idempotence -/

theorem rupee_guard_neg (q : Str) : ¬(rupeeSym ++ q = [] ∨ rupeeSym ++ q = lit "N/A") := by
  rintro (h1 | h1)
  · exact List.cons_ne_nil _ _ h1
  · have hNA : lit "N/A" = ['N', '/', 'A'] := rfl
    rw [hNA] at h1
    injection h1 with h2 _
    exact absurd h2 (by decide)

theorem rupee_startsB (q : Str) : startsB rupeeSym (rupeeSym ++ q) = true :=
  startsB_self rupeeSym q

theorem ensure_rupee_no_dollar (q : Str) (hd : substrB (lit "$") (rupeeSym ++ q) = false) :
    ensure_rupee_format (rupeeSym ++ q) = rupeeSym ++ q := by
  rw [ensure_rupee_format, if_neg (rupee_guard_neg q)]
  simp only [rupee_startsB q, if_true, hd, Bool.false_eq_true, if_false]

theorem ensure_rupee_nomatch (q : Str) (hns : numSearch (rupeeSym ++ q) = none) :
    ensure_rupee_format (rupeeSym ++ q) = rupeeSym ++ q := by
  rw [ensure_rupee_format, if_neg (rupee_guard_neg q)]
  simp only [rupee_startsB q, if_true, hns]
  split <;> rfl

theorem ensure_rupee_badfloat (q g : Str) (hns : numSearch (rupeeSym ++ q) = some g)
    (htf : tryFloat (stripCommas g) = none) :
    ensure_rupee_format (rupeeSym ++ q) = rupeeSym ++ q := by
  rw [ensure_rupee_format, if_neg (rupee_guard_neg q)]
  simp only [rupee_startsB q, if_true, hns, htf]
  split <;> rfl

theorem ensure_rupee_convert (q g : Str) (v : ℚ)
    (hd : substrB (lit "$") (rupeeSym ++ q) = true)
    (hns : numSearch (rupeeSym ++ q) = some g) (htf : tryFloat (stripCommas g) = some v) :
    ensure_rupee_format (rupeeSym ++ q) = rupeeSym ++ formatMoney (v * usdToInr) := by
  rw [ensure_rupee_format, if_neg (rupee_guard_neg q)]
  simp only [rupee_startsB q, if_true, hd, if_pos, hns, htf]

theorem ensure_rupee_format_idem (p : Str) (h : startsB rupeeSym p = true) :
    ensure_rupee_format (ensure_rupee_format p) = ensure_rupee_format p := by
  obtain ⟨q, rfl⟩ := (startsB_iff rupeeSym p).mp h
  cases hd : substrB (lit "$") (rupeeSym ++ q) with
  | false =>
    have hfp := ensure_rupee_no_dollar q hd
    rw [hfp, hfp]
  | true =>
    cases hns : numSearch (rupeeSym ++ q) with
    | none =>
      have hfp := ensure_rupee_nomatch q hns
      rw [hfp, hfp]
    | some g =>
      cases htf : tryFloat (stripCommas g) with
      | none =>
        have hfp := ensure_rupee_badfloat q g hns htf
        rw [hfp, hfp]
      | some v =>
        have hfp := ensure_rupee_convert q g v hd hns htf
        rw [hfp, ensure_rupee_no_dollar _ (no_dollar_formatMoney _)]

/-! ## The price pattern on well-formed phrases -/

/-- The head of `r` (if any) can extend neither the `[,\d]*` run nor start
the optional decimal part: appending `r` leaves a number token unchanged. -/
def numStop (r : Str) : Prop :=
  match r with
  | [] => True
  | c :: _ => isDC c = false ∧ c ≠ '.'

theorem dc_false_digit {c : Char} (h : isDC c = false) : isDigitC c = false := by
  cases hd : isDigitC c with
  | false => rfl
  | true => rw [isDC, hd] at h; simp at h

theorem groupedDigitsB_elim {cs : Str} (h : groupedDigitsB cs = true) :
    (∃ d ds, cs = d :: ds ∧ isDigitC d = true) ∧ ∀ c ∈ cs, isDC c = true := by
  cases cs with
  | nil => exact absurd h (by decide)
  | cons c t =>
    rw [groupedDigitsB, Bool.and_eq_true] at h
    exact ⟨⟨c, t, rfl, h.1⟩, fun x hx => List.all_eq_true.mp h.2 x hx⟩

theorem numToken_exact (n : NumLit) (hn : n.wfB = true) (r : Str) (hr : numStop r) :
    numToken (n.rep ++ r) = some (n.rep, r) := by
  rw [NumLit.wfB, Bool.and_eq_true] at hn
  have hint : groupedDigitsB n.intPart = true := hn.1
  have hfrac := hn.2
  obtain ⟨⟨d, ds, hds, hd⟩, hDC⟩ := groupedDigitsB_elim hint
  have hstopDig : headStop isDigitC r := by
    cases r with
    | nil => trivial
    | cons c t => exact dc_false_digit hr.1
  have hstopDC : headStop isDC r := by
    cases r with
    | nil => trivial
    | cons c t => exact hr.1
  have hDCdrop : ∀ c ∈ n.intPart.dropWhile isDigitC, isDC c = true :=
    fun c hc => hDC c ((List.dropWhile_sublist isDigitC).subset hc)
  have hne : (n.intPart.takeWhile isDigitC).isEmpty = false := by
    rw [hds, List.takeWhile_cons, if_pos hd]
    rfl
  obtain ⟨hta, hda⟩ := takeWhile_all_eq hDCdrop
  cases hf : n.fracPart with
  | none =>
    have hrep : n.rep = n.intPart := by rw [NumLit.rep, hf]; simp
    rw [hrep]
    obtain ⟨ht1, hd1⟩ := takeWhile_app_stop (p := isDigitC) n.intPart hstopDig
    obtain ⟨ht2, hd2⟩ := takeWhile_app_stop (p := isDC) (n.intPart.dropWhile isDigitC) hstopDC
    have hhp : ¬(List.head? r = some '.') := by
      cases r with
      | nil => simp
      | cons c t =>
        simp only [List.head?_cons]
        intro hcc
        injection hcc with hcc
        exact hr.2 hcc
    simp only [numToken, ht1, hd1, ht2, hta, hd2, hda, hne, Bool.false_eq_true, if_false,
      List.nil_append, List.takeWhile_append_dropWhile]
    rw [if_neg hhp]
  | some f =>
    rw [hf, Bool.and_eq_true] at hfrac
    have hfp := hfrac
    have hfne : f.isEmpty = false := by
      cases he : f.isEmpty
      · rfl
      · rw [he] at hfp; exact absurd hfp.1 (by decide)
    have hfdig : ∀ c ∈ f, isDigitC c = true := fun c hc => List.all_eq_true.mp hfp.2 c hc
    have hrep : n.rep = n.intPart ++ '.' :: f := by rw [NumLit.rep, hf]
    rw [hrep, List.append_assoc, List.cons_append]
    have hstop1 : headStop isDigitC ('.' :: (f ++ r)) := by
      show isDigitC '.' = false
      decide
    have hstop2 : headStop isDC ('.' :: (f ++ r)) := by
      show isDC '.' = false
      decide
    obtain ⟨ht1, hd1⟩ := takeWhile_app_stop (p := isDigitC) n.intPart hstop1
    obtain ⟨ht2, hd2⟩ := takeWhile_app_stop (p := isDC) (n.intPart.dropWhile isDigitC) hstop2
    obtain ⟨ht3, hd3⟩ := takeWhile_app_stop (p := isDigitC) f hstopDig
    obtain ⟨htf, hdf⟩ := takeWhile_all_eq hfdig
    have hfne3 : ((f ++ r).takeWhile isDigitC).isEmpty = false := by
      rw [ht3, htf]
      exact hfne
    simp only [numToken, ht1, hd1, ht2, hta, hd2, hda, hne, hfne, Bool.false_eq_true, if_false,
      List.nil_append, List.head?_cons, List.tail_cons, ht3, htf, hd3, hdf, hfne3,
      if_pos, List.takeWhile_append_dropWhile, List.append_assoc, List.cons_append]

theorem stripCI_self (tok : Str) : ∀ r : Str, stripCI tok (tok ++ r) = some r := by
  induction tok with
  | nil => intro r; rfl
  | cons a as ih =>
    intro r
    have hci : ciEq a a = true := by simp [ciEq]
    simp only [List.cons_append, stripCI, hci, if_true]
    exact ih r

theorem stripCI_head_ne {a c : Char} (as cs : Str) (h : ciEq a c = false) :
    stripCI (a :: as) (c :: cs) = none := by
  simp [stripCI, h]

theorem sepB_cases {sep : Str} (h : sepB sep = true) :
    sep = lit "to" ∨ sep = lit "-" ∨ sep = lit "and" := by
  simp only [sepB, Bool.or_eq_true, beq_iff_eq] at h
  rcases h with (h | h) | h
  · exact Or.inl h
  · exact Or.inr (Or.inl h)
  · exact Or.inr (Or.inr h)

theorem dropWhile_head_false {p : Char → Bool} {c : Char} (l : Str) (h : p c = false) :
    List.dropWhile p (c :: l) = c :: l := by
  rw [List.dropWhile_cons, if_neg (by simp [h])]

theorem numStop_ws_sep {w1 sep : Str} (rest : Str) (hw1 : ∀ c ∈ w1, isWsC c = true)
    (hsep : sepB sep = true) : numStop (w1 ++ (sep ++ rest)) := by
  cases w1 with
  | cons c t =>
    have hc := hw1 c (by simp)
    exact ⟨ws_not_dc hc, ws_ne_dot hc⟩
  | nil =>
    rcases sepB_cases hsep with rfl | rfl | rfl
    · exact ⟨by decide, by decide⟩
    · exact ⟨by decide, by decide⟩
    · exact ⟨by decide, by decide⟩

theorem dropWhile_ws_to_sep {w1 sep : Str} (rest : Str) (hw1 : ∀ c ∈ w1, isWsC c = true)
    (hsep : sepB sep = true) :
    (w1 ++ (sep ++ rest)).dropWhile isWsC = sep ++ rest := by
  rw [List.dropWhile_append_of_pos hw1]
  rcases sepB_cases hsep with rfl | rfl | rfl
  · exact dropWhile_head_false _ (by decide)
  · exact dropWhile_head_false _ (by decide)
  · exact dropWhile_head_false _ (by decide)

theorem stripSep_of_sep {sep : Str} (x : Str) (hsep : sepB sep = true) :
    stripSep (sep ++ x) = some x := by
  rcases sepB_cases hsep with rfl | rfl | rfl
  · rw [stripSep, stripCI_self]
  · have h1 : stripCI (lit "to") (lit "-" ++ x) = none := by
      show stripCI ('t' :: lit "o") ('-' :: x) = none
      exact stripCI_head_ne _ _ (by decide)
    rw [stripSep, h1, stripCI_self]
  · have h1 : stripCI (lit "to") (lit "and" ++ x) = none := by
      show stripCI ('t' :: lit "o") ('a' :: (lit "nd" ++ x)) = none
      exact stripCI_head_ne _ _ (by decide)
    have h2 : stripCI (lit "-") (lit "and" ++ x) = none := by
      show stripCI ('-' :: ([] : Str)) ('a' :: (lit "nd" ++ x)) = none
      exact stripCI_head_ne _ _ (by decide)
    rw [stripSep, h1, h2, stripCI_self]

theorem stripRupee_sym (x : Str) : stripRupee (rupeeSym ++ x) = x := by
  rw [stripRupee, if_pos (startsB_self rupeeSym x)]
  exact List.drop_left rupeeSym x

theorem stripRupee_digit {c : Char} (t : Str) (h : isDigitC c = true) :
    stripRupee (c :: t) = c :: t := by
  have h1 := isDigitC_toNat h
  have hbc : ('â' == c) = false := char_beq_false (by
    have h2 : ('â' : Char).toNat = 226 := by decide
    omega)
  have hns : startsB rupeeSym (c :: t) = false := by
    show ('â' == c && startsB ['‚', '¹'] t) = false
    rw [hbc, Bool.false_and]
  rw [stripRupee, hns]
  simp

/-- Peel the optional glyph and the following numeric literal: the prefix
`(?:â‚¹)?(\d+[,\d]*(?:\.\d+)?)` of the core on a well-formed input. -/
theorem stripRupee_numToken (rup : Bool) (n : NumLit) (hn : n.wfB = true) (r : Str)
    (hr : numStop r) :
    numToken (stripRupee ((if rup then rupeeSym else []) ++ (n.rep ++ r))) = some (n.rep, r) := by
  have hint : groupedDigitsB n.intPart = true := (by
    rw [NumLit.wfB, Bool.and_eq_true] at hn
    exact hn.1)
  obtain ⟨⟨d, ds, hds, hd⟩, _⟩ := groupedDigitsB_elim hint
  have hrepcons : n.rep = d :: (ds ++ (match n.fracPart with | some f => '.' :: f | none => [])) := by
    rw [NumLit.rep, hds, List.cons_append]
  cases rup with
  | true =>
    rw [if_pos rfl, stripRupee_sym]
    exact numToken_exact n hn r hr
  | false =>
    rw [if_neg (by simp), List.nil_append]
    have : n.rep ++ r = d :: ((ds ++ (match n.fracPart with | some f => '.' :: f | none => [])) ++ r) := by
      rw [hrepcons, List.cons_append]
    rw [this, stripRupee_digit _ hd, ← this]
    exact numToken_exact n hn r hr

theorem priceCoreAt_phrase (r1 r2 : Bool) (A B : NumLit) (w1 w2 sep : Str)
    (hA : A.wfB = true) (hB : B.wfB = true)
    (hw1 : ∀ c ∈ w1, isWsC c = true) (hw2 : ∀ c ∈ w2, isWsC c = true)
    (hsep : sepB sep = true) :
    priceCoreAt ((if r1 then rupeeSym else []) ++
        (A.rep ++ (w1 ++ (sep ++ (w2 ++ ((if r2 then rupeeSym else []) ++ B.rep)))))) =
      some (A.rep, B.rep) := by
  have hBint : groupedDigitsB B.intPart = true := (by
    rw [NumLit.wfB, Bool.and_eq_true] at hB
    exact hB.1)
  obtain ⟨⟨d, ds, hds, hd⟩, _⟩ := groupedDigitsB_elim hBint
  have h1 := stripRupee_numToken r1 A hA (w1 ++ (sep ++ (w2 ++ ((if r2 then rupeeSym else []) ++ B.rep))))
    (numStop_ws_sep _ hw1 hsep)
  have h2 := dropWhile_ws_to_sep (w2 ++ ((if r2 then rupeeSym else []) ++ B.rep)) hw1 hsep
  have h3 := stripSep_of_sep (w2 ++ ((if r2 then rupeeSym else []) ++ B.rep)) hsep
  have h4 : (w2 ++ ((if r2 then rupeeSym else []) ++ B.rep)).dropWhile isWsC =
      (if r2 then rupeeSym else []) ++ B.rep := by
    rw [List.dropWhile_append_of_pos hw2]
    cases r2 with
    | true =>
      rw [if_pos rfl]
      show List.dropWhile isWsC ('â' :: (['‚', '¹'] ++ B.rep)) = 'â' :: (['‚', '¹'] ++ B.rep)
      exact dropWhile_head_false _ (by decide)
    | false =>
      rw [if_neg (by simp), List.nil_append]
      have hrep : B.rep = d :: (ds ++ (match B.fracPart with | some f => '.' :: f | none => [])) := by
        rw [NumLit.rep, hds, List.cons_append]
      rw [hrep]
      exact dropWhile_head_false _ (digit_not_ws hd)
  have h5 := stripRupee_numToken r2 B hB [] trivial
  rw [List.append_nil] at h5
  simp only [priceCoreAt, h1, h2, h3, h4, h5]

theorem ciEq_b_digit {c : Char} (h : isDigitC c = true) : ciEq 'b' c = false := by
  have h1 := isDigitC_toNat h
  rw [ciEq, toLowerC_digit h]
  have hb : toLowerC 'b' = 'b' := by decide
  rw [hb]
  apply char_beq_false
  have h2 : ('b' : Char).toNat = 98 := by decide
  omega

theorem numLit_head (n : NumLit) (hn : n.wfB = true) :
    ∃ d rest, n.rep = d :: rest ∧ isDigitC d = true := by
  have hint : groupedDigitsB n.intPart = true := by
    rw [NumLit.wfB, Bool.and_eq_true] at hn
    exact hn.1
  obtain ⟨⟨d, ds, hds, hd⟩, _⟩ := groupedDigitsB_elim hint
  exact ⟨d, ds ++ (match n.fracPart with | some f => '.' :: f | none => []),
    by rw [NumLit.rep, hds, List.cons_append], hd⟩

theorem dropWhile_ws_glyph_num (rup : Bool) (n : NumLit) (hn : n.wfB = true) (x : Str) :
    ((if rup then rupeeSym else []) ++ (n.rep ++ x)).dropWhile isWsC =
      (if rup then rupeeSym else []) ++ (n.rep ++ x) := by
  obtain ⟨d, rest, hrep, hd⟩ := numLit_head n hn
  cases rup with
  | true =>
    rw [if_pos rfl]
    show List.dropWhile isWsC ('â' :: (['‚', '¹'] ++ (n.rep ++ x))) =
      'â' :: (['‚', '¹'] ++ (n.rep ++ x))
    exact dropWhile_head_false _ (by decide)
  | false =>
    rw [if_neg (by simp), List.nil_append, hrep, List.cons_append]
    exact dropWhile_head_false _ (digit_not_ws hd)

theorem stripCI_between_fails (rup : Bool) (n : NumLit) (hn : n.wfB = true) (x : Str) :
    stripCI (lit "between") ((if rup then rupeeSym else []) ++ (n.rep ++ x)) = none := by
  obtain ⟨d, rest, hrep, hd⟩ := numLit_head n hn
  cases rup with
  | true =>
    rw [if_pos rfl]
    show stripCI ('b' :: lit "etween") ('â' :: (['‚', '¹'] ++ (n.rep ++ x))) = none
    exact stripCI_head_ne _ _ (by decide)
  | false =>
    rw [if_neg (by simp), List.nil_append, hrep, List.cons_append]
    show stripCI ('b' :: lit "etween") (d :: (rest ++ x)) = none
    exact stripCI_head_ne _ _ (ciEq_b_digit hd)

theorem priceAt_phrase (betw r1 r2 : Bool) (w0 w1 w2 sep : Str) (A B : NumLit)
    (hA : A.wfB = true) (hB : B.wfB = true)
    (hw0 : ∀ c ∈ w0, isWsC c = true) (hw0ne : betw = true → w0 ≠ [])
    (hw1 : ∀ c ∈ w1, isWsC c = true) (hw2 : ∀ c ∈ w2, isWsC c = true)
    (hsep : sepB sep = true) :
    priceAt (pricePhrase betw r1 r2 w0 w1 w2 sep A B) = some (A.rep, B.rep) := by
  have hcore := priceCoreAt_phrase r1 r2 A B w1 w2 sep hA hB hw1 hw2 hsep
  rw [pricePhrase]
  cases betw with
  | false =>
    rw [if_neg (by simp), List.nil_append]
    simp only [List.append_assoc]
    have hbet := stripCI_between_fails r1 A hA
      (w1 ++ (sep ++ (w2 ++ ((if r2 = true then rupeeSym else []) ++ B.rep))))
    simp only [priceAt, hbet, hcore]
  | true =>
    rw [if_pos rfl]
    simp only [List.append_assoc]
    obtain ⟨c0, w0', rfl⟩ : ∃ c0 w0', w0 = c0 :: w0' := by
      cases w0 with
      | nil => exact absurd rfl (hw0ne rfl)
      | cons c0 w0' => exact ⟨c0, w0', rfl⟩
    have hc0 := hw0 c0 (by simp)
    have hbet := stripCI_self (lit "between")
      (c0 :: w0' ++ ((if r1 = true then rupeeSym else []) ++
        (A.rep ++ (w1 ++ (sep ++ (w2 ++ ((if r2 = true then rupeeSym else []) ++ B.rep)))))))
    have htk : ((c0 :: w0' ++ ((if r1 = true then rupeeSym else []) ++
        (A.rep ++ (w1 ++ (sep ++ (w2 ++ ((if r2 = true then rupeeSym else []) ++
          B.rep))))))).takeWhile isWsC).isEmpty = false := by
      rw [List.cons_append, List.takeWhile_cons, if_pos hc0]
      rfl
    have hdw : (c0 :: w0' ++ ((if r1 = true then rupeeSym else []) ++
        (A.rep ++ (w1 ++ (sep ++ (w2 ++ ((if r2 = true then rupeeSym else []) ++
          B.rep))))))).dropWhile isWsC =
        (if r1 = true then rupeeSym else []) ++
          (A.rep ++ (w1 ++ (sep ++ (w2 ++ ((if r2 = true then rupeeSym else []) ++ B.rep))))) := by
      rw [List.dropWhile_append_of_pos (by intro a ha; exact hw0 a ha)]
      exact dropWhile_ws_glyph_num r1 A hA _
    simp only [priceAt, hbet, htk, Bool.false_eq_true, if_false, hdw, hcore]

theorem searchPrice_head {s : Str} {g : Str × Str} (hne : s ≠ []) (h : priceAt s = some g) :
    searchPrice s = some g := by
  cases s with
  | nil => exact absurd rfl hne
  | cons c t => simp only [searchPrice, h]

theorem pricePhrase_ne_nil (betw r1 r2 : Bool) (w0 w1 w2 sep : Str) (A B : NumLit)
    (hB : B.wfB = true) :
    pricePhrase betw r1 r2 w0 w1 w2 sep A B ≠ [] := by
  obtain ⟨d, rest, hrep, _⟩ := numLit_head B hB
  rw [pricePhrase]
  intro hcontra
  rcases List.append_eq_nil.mp hcontra with ⟨_, h2⟩
  rw [hrep] at h2
  exact List.cons_ne_nil _ _ h2

/-! ## Remaining small helpers -/

theorem pyFloat_of_drop_nil (cs : Str) (h : cs.dropWhile isDigitC = []) :
    pyFloat cs = (natVal (cs.takeWhile isDigitC) : ℚ) := by
  simp [pyFloat, h]

theorem pyFloat_nonneg (cs : Str) : 0 ≤ pyFloat cs := by
  rw [pyFloat]
  split
  · positivity
  · positivity

theorem or_mono {a b a' b' : Bool} (ha : a = true → a' = true) (hb : b = true → b' = true)
    (h : (a || b) = true) : (a' || b') = true := by
  rw [Bool.or_eq_true] at h ⊢
  rcases h with h | h
  · exact Or.inl (ha h)
  · exact Or.inr (hb h)

theorem and_mono_left {a b a' : Bool} (ha : a = true → a' = true) (h : (a && b) = true) :
    (a' && b) = true := by
  rw [Bool.and_eq_true] at h ⊢
  exact ⟨ha h.1, h.2⟩

theorem ite_int_eq_iff {b : Bool} {k : Int} (hk : k ≠ 0) :
    (if b then k else 0) = k ↔ b = true := by
  cases b <;> simp [Ne.symm hk]

theorem ite_str_eq_iff {b : Bool} {s : Str} (hs : s ≠ []) :
    (if b then s else []) = s ↔ b = true := by
  cases b <;> simp [Ne.symm hs]

/-! ## Claim theorems -/

/-- C1 (counterexample): two conjuncts of the claim fail on the scenario
input.  First, the pattern's currency glyph is the file's mojibake literal
(`rupeeSym`), which never matches the real `₹` of the scenario text: the
unconsumed `₹` before `2,00,000` defeats every candidate match, so
`extract_price_range` returns `(None, None)`, not `(150000.0, 200000.0)`.
Second, the text mentions both "Pro" and "Air" ("Do you prefer MacBook Pro
or MacBook Air?"), so `build_search_query` appends `" Air"` after
`" Pro"` and the built query `"MacBook M3 Pro Air 16-inch"` does not
contain the contiguous substring `"MacBook M3 Pro 16-inch"`. -/
theorem C1_counterexample :
    extract_price_range prefC1 = (none, none) ∧
    ¬(substrB (lit "MacBook M3 Pro 16-inch")
        (build_search_query (lit "MacBook M3") prefC1) = true) := by
  refine ⟨by decide, by decide⟩

/-- C1 (amended): on the scenario text, `extract_price_range` returns
`(None, None)` — the source's glyph literal is the mojibake `rupeeSym`, so
the pattern cannot consume the real `₹` standing before the second number;
`build_search_query` returns exactly `"MacBook M3 Pro Air 16-inch"` (which
contains `"MacBook M3 Pro"` and `"16-inch"` but, because `" Air"`
intervenes, not `"MacBook M3 Pro 16-inch"`); and `filter_results` scores
the listing `"MacBook Pro 16-inch 512GB Silver"` from `"Amazon"` exactly
12 (5 pro + 4 screen + 3 preferred seller; no colour is mentioned in the
preference text). -/
theorem C1_amended_scenario :
    extract_price_range prefC1 = (none, none) ∧
    build_search_query (lit "MacBook M3") prefC1 = lit "MacBook M3 Pro Air 16-inch" ∧
    substrB (lit "MacBook M3 Pro") (build_search_query (lit "MacBook M3") prefC1) = true ∧
    substrB (lit "16-inch") (build_search_query (lit "MacBook M3") prefC1) = true ∧
    filter_results [listingC1] prefC1 = [{ listingC1 with matchScore := 12 }] := by
  refine ⟨by decide, by decide, by decide, by decide, by decide⟩

/-- C2: `filter_results` assigns a score to every listing and returns
exactly the input listings (a permutation of the score-assigned inputs),
sorted by `matchScore` descending, and stably: for every score value the
listings holding it appear in the output in their input order. -/
theorem C2_stable_ranking (products : List Listing) (prefs : Str) :
    (filter_results products prefs).Perm (products.map (assignScore prefs)) ∧
    (filter_results products prefs).Pairwise (fun a b => b.matchScore ≤ a.matchScore) ∧
    ∀ s : Int, (filter_results products prefs).filter (fun p => p.matchScore == s) =
      (products.map (assignScore prefs)).filter (fun p => p.matchScore == s) :=
  ⟨sortDesc_perm _, sortDesc_pairwise _, fun s => sortDesc_filter _ s⟩

/-- C3 (counterexample): the claim admits a leading currency glyph on
either number, but the program's pattern glyph is the mojibake literal
`rupeeSym`, never the real `₹`: on the well-formed phrase `"100 to ₹200"`
(real `₹` before the second number), for which the claim asserts the
result `(100.0, 200.0)`, the pattern finds no match and
`extract_price_range` returns `(None, None)`. -/
theorem C3_counterexample :
    extract_price_range (lit "100 to ₹200") = (none, none) := by
  decide

/-- C3 (amended): for every well-formed price-range phrase
`[between] [glyph]A sep [glyph]B` (sep one of `to`, `and`, `-`) with
numeric `A ≤ B` (with or without grouping separators and decimal parts),
where `glyph` is the currency-glyph literal the program actually contains
(`rupeeSym`, the mojibake form — the real `₹` before the second number
makes the pattern fail, see the counterexample), `extract_price_range`
returns the pair of floating-point values of the separator-stripped
numeric literals. -/
theorem C3_wellformed_phrase (betw r1 r2 : Bool) (w0 w1 w2 sep : Str) (A B : NumLit)
    (hA : A.wfB = true) (hB : B.wfB = true)
    (hw0 : w0.all isWsC = true) (hw0ne : betw = true → w0 ≠ [])
    (hw1 : w1.all isWsC = true) (hw2 : w2.all isWsC = true)
    (hsep : sepB sep = true) (hAB : A.val ≤ B.val) :
    extract_price_range (pricePhrase betw r1 r2 w0 w1 w2 sep A B) =
      (some A.val, some B.val) := by
  have h := priceAt_phrase betw r1 r2 w0 w1 w2 sep A B hA hB
    (List.all_eq_true.mp hw0) hw0ne (List.all_eq_true.mp hw1) (List.all_eq_true.mp hw2) hsep
  rw [extract_price_range, searchPrice_head (pricePhrase_ne_nil betw r1 r2 w0 w1 w2 sep A B hB) h]
  rfl

/-- C3 (witness): the phrase `between ⟨glyph⟩1,50,000 and ⟨glyph⟩2,00,000`
with the program's glyph literal on both numbers. -/
theorem C3_witness :
    extract_price_range (pricePhrase true true true (lit " ") (lit " ") (lit " ") (lit "and")
        ⟨lit "1,50,000", none⟩ ⟨lit "2,00,000", none⟩) =
      (some (NumLit.val ⟨lit "1,50,000", none⟩), some (NumLit.val ⟨lit "2,00,000", none⟩)) :=
  C3_wellformed_phrase true true true (lit " ") (lit " ") (lit " ") (lit "and")
    ⟨lit "1,50,000", none⟩ ⟨lit "2,00,000", none⟩ (by decide) (by decide) (by decide)
    (fun _ => by decide) (by decide) (by decide) (by decide)
    (by
      show pyFloat (stripCommas (NumLit.rep ⟨lit "1,50,000", none⟩)) ≤
        pyFloat (stripCommas (NumLit.rep ⟨lit "2,00,000", none⟩))
      rw [show stripCommas (NumLit.rep ⟨lit "1,50,000", none⟩) = lit "150000" from by decide,
        show stripCommas (NumLit.rep ⟨lit "2,00,000", none⟩) = lit "200000" from by decide,
        pyFloat_of_drop_nil _ (by decide), pyFloat_of_drop_nil _ (by decide)]
      exact Nat.cast_le.mpr (by decide))

/-- C4 (counterexample): `extract_price_range` does not enforce
`min ≤ max`: the text `"500 to 20"` yields `(500, 20)` with `500 > 20`. -/
theorem C4_counterexample :
    extract_price_range (lit "500 to 20") = (some 500, some 20) ∧ ¬((500 : ℚ) ≤ 20) := by
  constructor
  · have h : searchPrice (lit "500 to 20") = some (lit "500", lit "20") := by decide
    simp only [extract_price_range, h]
    rw [show stripCommas (lit "500") = lit "500" from by decide,
      show stripCommas (lit "20") = lit "20" from by decide,
      pyFloat_of_drop_nil _ (by decide), pyFloat_of_drop_nil _ (by decide)]
    norm_num [show natVal (List.takeWhile isDigitC (lit "500")) = 500 from by decide,
      show natVal (List.takeWhile isDigitC (lit "20")) = 20 from by decide]
  · norm_num

/-- C4 (amended): `extract_price_range` sets both bounds or neither (they
come from one regex match), and each returned bound is a nonnegative
value; the stronger invariant `min ≤ max` is not enforced by the code
(the bounds are taken in textual order). -/
theorem C4_amended_bounds (s : Str) :
    ((extract_price_range s).1.isSome ↔ (extract_price_range s).2.isSome) ∧
    0 ≤ (extract_price_range s).1.getD 0 ∧ 0 ≤ (extract_price_range s).2.getD 0 := by
  rw [extract_price_range]
  cases searchPrice s with
  | none => simp
  | some g =>
    cases g with
    | mk g1 g2 => simp [pyFloat_nonneg]

/-- C5: when the preference text contains both the `"512"` marker and a
1TB marker, the storage `elif` chain of `build_search_query` emits exactly
the single suffix `" 512GB"` (fixed priority 512GB, 1TB, 2TB), and the
built query decomposes with `" 512GB"` as its only storage suffix. -/
theorem C5_storage_priority (base prefs : Str) (h512 : substrB (lit "512") prefs = true)
    (h1tb : (substrB (lit "1tb") (lower prefs) || substrB (lit "1 tb") (lower prefs)) = true) :
    storageSuffix prefs = lit " 512GB" ∧
    build_search_query base prefs =
      base ++ proSuffix prefs ++ airSuffix prefs ++ size16Suffix prefs ++ size14Suffix prefs
        ++ size13Suffix prefs ++ lit " 512GB" ++ ramSuffix prefs ++ colorSuffixes prefs := by
  have hs : storageSuffix prefs = lit " 512GB" := by rw [storageSuffix, if_pos h512]
  refine ⟨hs, ?_⟩
  rw [build_search_query_decomp, hs]

/-- C5 (witness): preference text `"512 1tb"`. -/
theorem C5_witness :
    storageSuffix (lit "512 1tb") = lit " 512GB" ∧
    build_search_query (lit "MacBook") (lit "512 1tb") =
      lit "MacBook" ++ proSuffix (lit "512 1tb") ++ airSuffix (lit "512 1tb")
        ++ size16Suffix (lit "512 1tb") ++ size14Suffix (lit "512 1tb")
        ++ size13Suffix (lit "512 1tb") ++ lit " 512GB" ++ ramSuffix (lit "512 1tb")
        ++ colorSuffixes (lit "512 1tb") :=
  C5_storage_priority (lit "MacBook") (lit "512 1tb") (by decide) (by decide)

/-- C6 (counterexample): the scoring rows match the listing *title* only,
never the source: with preference text `"pro"` and a listing whose source
is `"pro"` but whose title does not contain `"pro"`, the claimed
title-or-source rule would award 5, but `filter_results` scores it 0. -/
theorem C6_counterexample :
    filter_results [{ title := lit "laptop", source := lit "pro" }] (lit "pro") =
      [{ title := lit "laptop", source := lit "pro", matchScore := 0 }] ∧
    substrB (lit "pro") (lower (lit "pro")) = true ∧ ¬((0 : Int) = 5) := by
  refine ⟨by decide, by decide, by decide⟩

/-- C6 (amended): the score computed by `filter_results` is exactly the sum
of the independent rubric rows, where every attribute row (pro, air, screen
sizes, storage, RAM, colours, the new-but-refurbished penalty) matches the
lower-cased preference text against the lower-cased listing *title* only,
and only the preferred-seller row inspects the listing source. -/
theorem C6_amended_rubric (p : Listing) (t : Str) :
    scoreOf p t =
      rowPro t p.title + rowAir t p.title + rowSize16 t p.title + rowSize14 t p.title
        + rowSize13 t p.title + rowStorage512 t p.title + rowStorage1TB t p.title
        + rowStorage2TB t p.title + rowRam16 t p.title + rowRam32 t p.title
        + rowColors t p.title + rowSellers p.source + rowNewPenalty t p.title :=
  scoreOf_eq_rows p t

/-- C7 (counterexample): detection is not monotonic for the
`build_search_query` storage chain: the text `"1tb"` yields the suffix
`" 1TB"`, but appending the distinct keyword `" 512"` switches the `elif`
chain to `" 512GB"` and the previously emitted `"1TB"` token disappears
from the query. -/
theorem C7_counterexample :
    build_search_query (lit "X") (lit "1tb") = lit "X 1TB" ∧
    build_search_query (lit "X") (lit "1tb" ++ lit " 512") = lit "X 512GB" ∧
    substrB (lit "1TB") (build_search_query (lit "X") (lit "1tb")) = true ∧
    substrB (lit "1TB") (build_search_query (lit "X") (lit "1tb" ++ lit " 512")) = false := by
  refine ⟨by decide, by decide, by decide, by decide⟩

/-- C7 (amended): token detection is monotonic under appending text for
every scoring row of `filter_results` (all rows are independent `if`s) and
for the non-exclusive suffixes of `build_search_query` (pro, air, screen
sizes, colours); the storage and RAM suffixes are `elif` priority chains
and are exempt (see the counterexample). -/
theorem C7_amended_monotone (t u title : Str) :
    (rowPro t title = 5 → rowPro (t ++ u) title = 5) ∧
    (rowAir t title = 5 → rowAir (t ++ u) title = 5) ∧
    (rowSize16 t title = 4 → rowSize16 (t ++ u) title = 4) ∧
    (rowSize14 t title = 4 → rowSize14 (t ++ u) title = 4) ∧
    (rowSize13 t title = 4 → rowSize13 (t ++ u) title = 4) ∧
    (rowStorage512 t title = 3 → rowStorage512 (t ++ u) title = 3) ∧
    (rowStorage1TB t title = 3 → rowStorage1TB (t ++ u) title = 3) ∧
    (rowStorage2TB t title = 3 → rowStorage2TB (t ++ u) title = 3) ∧
    (rowRam16 t title = 2 → rowRam16 (t ++ u) title = 2) ∧
    (rowRam32 t title = 2 → rowRam32 (t ++ u) title = 2) ∧
    (∀ c : Str, (substrB c (lower t) && substrB c (lower title)) = true →
      (substrB c (lower (t ++ u)) && substrB c (lower title)) = true) ∧
    (rowNewPenalty t title = -10 → rowNewPenalty (t ++ u) title = -10) ∧
    (proSuffix t = lit " Pro" → proSuffix (t ++ u) = lit " Pro") ∧
    (airSuffix t = lit " Air" → airSuffix (t ++ u) = lit " Air") ∧
    (size16Suffix t = lit " 16-inch" → size16Suffix (t ++ u) = lit " 16-inch") ∧
    (size14Suffix t = lit " 14-inch" → size14Suffix (t ++ u) = lit " 14-inch") ∧
    (size13Suffix t = lit " 13-inch" → size13Suffix (t ++ u) = lit " 13-inch") := by
  refine ⟨?_, ?_, ?_, ?_, ?_, ?_, ?_, ?_, ?_, ?_, ?_, ?_, ?_, ?_, ?_, ?_, ?_⟩
  · intro h
    rw [rowPro, ite_int_eq_iff (by decide)] at h ⊢
    exact and_mono_left (substrB_lower_mono u) h
  · intro h
    rw [rowAir, ite_int_eq_iff (by decide)] at h ⊢
    exact and_mono_left (substrB_lower_mono u) h
  · intro h
    rw [rowSize16, ite_int_eq_iff (by decide)] at h ⊢
    exact and_mono_left (substrB_lower_mono u) h
  · intro h
    rw [rowSize14, ite_int_eq_iff (by decide)] at h ⊢
    exact and_mono_left (substrB_lower_mono u) h
  · intro h
    rw [rowSize13, ite_int_eq_iff (by decide)] at h ⊢
    exact and_mono_left (substrB_lower_mono u) h
  · intro h
    rw [rowStorage512, ite_int_eq_iff (by decide)] at h ⊢
    exact and_mono_left (substrB_lower_mono u) h
  · intro h
    rw [rowStorage1TB, ite_int_eq_iff (by decide)] at h ⊢
    exact and_mono_left (or_mono (substrB_lower_mono u) (substrB_lower_mono u)) h
  · intro h
    rw [rowStorage2TB, ite_int_eq_iff (by decide)] at h ⊢
    exact and_mono_left (or_mono (substrB_lower_mono u) (substrB_lower_mono u)) h
  · intro h
    rw [rowRam16, ite_int_eq_iff (by decide)] at h ⊢
    exact and_mono_left (or_mono (substrB_lower_mono u) (substrB_lower_mono u)) h
  · intro h
    rw [rowRam32, ite_int_eq_iff (by decide)] at h ⊢
    exact and_mono_left (or_mono (substrB_lower_mono u) (substrB_lower_mono u)) h
  · intro c h
    exact and_mono_left (substrB_lower_mono u) h
  · intro h
    rw [rowNewPenalty, ite_int_eq_iff (by decide)] at h ⊢
    exact and_mono_left (substrB_lower_mono u) h
  · intro h
    rw [proSuffix, ite_str_eq_iff (by decide)] at h ⊢
    exact substrB_lower_mono u h
  · intro h
    rw [airSuffix, ite_str_eq_iff (by decide)] at h ⊢
    exact substrB_lower_mono u h
  · intro h
    rw [size16Suffix, ite_str_eq_iff (by decide)] at h ⊢
    exact or_mono (substrB_append_right u) (substrB_lower_mono u) h
  · intro h
    rw [size14Suffix, ite_str_eq_iff (by decide)] at h ⊢
    exact or_mono (substrB_append_right u) (substrB_lower_mono u) h
  · intro h
    rw [size13Suffix, ite_str_eq_iff (by decide)] at h ⊢
    exact or_mono (substrB_append_right u) (substrB_lower_mono u) h

/-- C7 (witness): the pro row detected for `"pro"` is still detected after
appending `" 16"`. -/
theorem C7_witness : rowPro (lit "pro" ++ lit " 16") (lit "macbook pro") = 5 :=
  (C7_amended_monotone (lit "pro") (lit " 16") (lit "macbook pro")).1 (by decide)

/-- C8: `ensure_rupee_format` is idempotent on prices already starting
with the rupee-glyph literal (`rupeeSym`, as the source spells it): either
the string is returned unchanged (then a second application changes
nothing), or it contains `$` and is replaced by the glyph followed by a
formatted number, which contains no `$` and is a fixed point. -/
theorem C8_currency_idempotent (p : Str) (h : startsB rupeeSym p = true) :
    ensure_rupee_format (ensure_rupee_format p) = ensure_rupee_format p :=
  ensure_rupee_format_idem p h

/-- C8 (witness): the dollar-bearing price `â‚¹5$` — the glyph spelled as
in the source — exercising the conversion path. -/
theorem C8_witness :
    startsB rupeeSym (lit "â‚¹5$") = true ∧
    ensure_rupee_format (ensure_rupee_format (lit "â‚¹5$")) =
      ensure_rupee_format (lit "â‚¹5$") :=
  ⟨by decide, C8_currency_idempotent (lit "â‚¹5$") (by decide)⟩

/-- C9: if the outbound search call raises an error, `fetch_shopping_results`
catches it, records the user-visible notice, and returns the empty listing
sequence; nothing escapes the boundary. -/
theorem C9_fetch_error_boundary (api : SearchParams → Except Str (List Listing))
    (apiKey query : Str) (minP maxP : Option ℚ) (e : Str)
    (h : api (mkParams apiKey query minP maxP) = .error e) :
    fetch_shopping_results api apiKey query minP maxP =
      ([], [lit "Error fetching shopping results: " ++ e]) := by
  simp only [fetch_shopping_results, h]

/-- C9 (witness): a transport that always raises `"boom"`. -/
theorem C9_witness :
    fetch_shopping_results (fun _ => .error (lit "boom")) (lit "k") (lit "q") none none =
      ([], [lit "Error fetching shopping results: " ++ lit "boom"]) :=
  C9_fetch_error_boundary (fun _ => .error (lit "boom")) (lit "k") (lit "q") none none
    (lit "boom") rfl

/-- C10: substring matching makes `"16gb"` satisfy the `"16"` screen-size
check as well: a preference text containing `"16gb"` and a title containing
`"16gb"` fire both the +4 screen-size row and the +2 RAM row. -/
theorem C10_sixteen_double_count (prefs title : Str)
    (hp : substrB (lit "16gb") (lower prefs) = true)
    (ht : substrB (lit "16gb") (lower title) = true) :
    rowSize16 prefs title = 4 ∧ rowRam16 prefs title = 2 := by
  have h16p : substrB (lit "16") (lower prefs) = true := substrB_trans (by decide) hp
  have h16t : substrB (lit "16") (lower title) = true := substrB_trans (by decide) ht
  constructor
  · rw [rowSize16]
    simp [h16p, h16t]
  · rw [rowRam16]
    simp [hp, ht]

/-- C10 (witness): preference text `"16GB"` and title `"MacBook 16GB"`. -/
theorem C10_witness :
    rowSize16 (lit "16GB") (lit "MacBook 16GB") = 4 ∧
    rowRam16 (lit "16GB") (lit "MacBook 16GB") = 2 :=
  C10_sixteen_double_count (lit "16GB") (lit "MacBook 16GB") (by decide) (by decide)
